import Mathlib

/-!
Verification of the RNR instance-hierarchy core (`rnr-core/src/instance.rs`)
and the DataModel root registry (`rnr-datamodel/src/datamodel.rs`).

The Rust heap of `Rc<RefCell<Instance>>` cells is embedded as a total map
from node ids (`Nat`, standing for the `Rc` pointer identity) to `Node`
records; `Rc::ptr_eq` becomes equality of ids.  `Weak::upgrade` on the
parent back-reference always succeeds in the states we consider (no node is
ever dropped inside the modelled operations), so the parent field is an
`Option Nat`.

`RefCell` dynamic borrows are part of the observable semantics of this code
(`set_parent` holds a `RefMut` on the moved node across its call to
`add_child_internal`), so the state carries one borrow flag per node:
`flags i = true` means cell `i` is currently mutably borrowed.  Shared
borrows in the embedded functions are all transient (acquired and released
within a single statement, with no mutable acquisition nested inside), so
they are represented by a conflict check against the mutable flag only.
Acquiring any borrow on a mutably-borrowed cell panics, which the embedding
surfaces as the `RRes.panic` result carrying the state at the panic point
(the state of the `Rc` heap survives unwinding and is what a
`catch_unwind`-style observer would see).

Listener callbacks are modelled as passive observers: each `for listener in
&mut x.listeners { listener.on_…(…) }` loop is recorded as one event
delivered to node `x`'s listener list, appended to a global trace.  "Each
listener on `x` receives event `e` exactly once" is then "event `(x, e)`
occurs exactly once in the trace".

The recursive walks (`is_ancestor_of`'s parent-chain loop and the
`notify_descendants_*` recursions) are given explicit fuel; exhausting it
yields the distinguished `RRes.fuelout` result, which never occurs in any
theorem below (well-formed states are given enough fuel).
-/

/-- A single `Instance` cell: the fields of `struct Instance`
(`instance.rs`), with `Rc` references replaced by node ids.  The
`listeners` vector is not carried as data; notifications to it are
recorded in the global event trace instead. -/
structure Node where
  name : String
  className : String
  archivable : Bool
  parent : Option Nat
  children : List Nat
deriving DecidableEq

/-- `Instance::new()`: detached, default name and class "Instance",
archivable. -/
def newInstance : Node :=
  { name := "Instance", className := "Instance", archivable := true,
    parent := none, children := [] }

/-- One delivery of a hierarchy notification to the listener list of a
node.  First argument: the node whose listeners are being iterated;
second: the subject instance passed to the callback. -/
inductive Event where
  | childAdded : Nat → Nat → Event
  | childRemoved : Nat → Nat → Event
  | descAdded : Nat → Nat → Event
  | descRemoved : Nat → Nat → Event
  | parentChanged : Nat → Option Nat → Event
deriving DecidableEq

/-- The heap of instances plus the dynamic-borrow flags and the trace of
listener notifications delivered so far. -/
structure State where
  nodes : Nat → Node
  flags : Nat → Bool
  events : List Event

/-- Result of running an embedded operation: normal return, `RefCell`
borrow panic (carrying the heap as it stands at the panic point), or fuel
exhaustion of a modelled recursion. -/
inductive RRes where
  | ok : State → RRes
  | panic : State → RRes
  | fuelout : State → RRes

def RRes.bind : RRes → (State → RRes) → RRes
  | .ok s, f => f s
  | .panic s, _ => .panic s
  | .fuelout s, _ => .fuelout s

def RRes.isOk : RRes → Bool
  | .ok _ => true
  | _ => false

def RRes.isPanic : RRes → Bool
  | .panic _ => true
  | _ => false

/-- The state carried by a result, whichever constructor. -/
def RRes.st : RRes → State
  | .ok s => s
  | .panic s => s
  | .fuelout s => s

/-- Update one node of the heap. -/
def State.setNode (s : State) (i : Nat) (n : Node) : State :=
  { s with nodes := fun j => if j = i then n else s.nodes j }

/-- Append one notification to the trace. -/
def State.emit (s : State) (e : Event) : State :=
  { s with events := s.events ++ [e] }

/-- `x.borrow_mut()` / the conflict check of `x.borrow()`: panics if the
cell is already mutably borrowed, otherwise marks it borrowed. -/
def acquireMut (s : State) (i : Nat) : RRes :=
  if s.flags i then .panic s
  else .ok { s with flags := fun j => if j = i then true else s.flags j }

/-- Dropping a `RefMut`: the cell becomes free again. -/
def releaseMut (s : State) (i : Nat) : State :=
  { s with flags := fun j => if j = i then false else s.flags j }

/-- `Instance::contains`: `self.children.iter().any(|c| Rc::ptr_eq(c, child))`. -/
def containsChild (s : State) (i c : Nat) : Bool :=
  (s.nodes i).children.contains c

/-- The parent chain of `b` (starting at `b`'s parent) collected by the
loop of `Instance::is_ancestor_of`, cut off by fuel.  A cyclic chain makes
the Rust loop diverge; with enough fuel on an acyclic state the embedding
returns the full chain. -/
def ancChain (s : State) : Nat → Option Nat → List Nat
  | 0, _ => []
  | _ + 1, none => []
  | fuel + 1, some p => p :: ancChain s fuel (s.nodes p).parent

/-- `Instance::is_ancestor_of(a, b)`: walk `b`'s parent chain, true if `a`
appears. -/
def isAncestorOf (s : State) (fuel : Nat) (a b : Nat) : Bool :=
  (ancChain s fuel (s.nodes b).parent).contains a

/-- `Instance::can_add_child(parent, child)`, as evaluated with no borrows
held (the call from `can_set_parent`): false on self-reference, when
`parent` is a direct child of `child`, or when `child` already has any
parent. -/
def canAddChild (s : State) (p c : Nat) : Bool :=
  !(c == p || containsChild s c p || (s.nodes c).parent.isSome)

/-- `Instance::can_set_parent`. -/
def canSetParent (s : State) (fuel : Nat) (c : Nat) (np : Option Nat) : Bool :=
  match np with
  | none => true
  | some p => !isAncestorOf s fuel c p && canAddChild s p c

/-- `Instance::can_add_child` as evaluated from `add_child_internal`,
where the caller (`set_parent`) still holds `child.borrow_mut()`: the
first disjunct `Rc::ptr_eq(child, parent)` touches no cell, but the second
(`child.borrow().contains(parent)`) acquires a shared borrow on `child`
and panics (`none`) if `child` is mutably borrowed. -/
def canAddChildB (s : State) (p c : Nat) : Option Bool :=
  if c == p then some false
  else if s.flags c then none
  else some (!(containsChild s c p || (s.nodes c).parent.isSome))

/-- `notify_descendants_removed`, decomposed over a worklist of children:
for each child, `child.borrow_mut()` is acquired, the walk recurses into
its children, `on_descendant_removed` is delivered to its listeners, and
the borrow is dropped.  Fuel bounds the recursion depth. -/
def ndrList : Nat → State → List Nat → Nat → RRes
  | _ + 1, s, [], _ => .ok s
  | 0, s, l, _ => match l with | [] => .ok s | _ :: _ => .fuelout s
  | fuel + 1, s, ch :: rest, inst =>
      (acquireMut s ch).bind fun s1 =>
      (ndrList fuel s1 (s1.nodes ch).children inst).bind fun s2 =>
      ndrList fuel (releaseMut (s2.emit (.descRemoved ch inst)) ch) rest inst

/-- `notify_descendants_added`, decomposed the same way; the source skips
the just-added instance (`if !Rc::ptr_eq(child, instance)`) at every
level, so the walk descends into the attachment point's other children,
not into the new subtree. -/
def ndaList : Nat → State → List Nat → Nat → RRes
  | _ + 1, s, [], _ => .ok s
  | 0, s, l, _ => match l with | [] => .ok s | _ :: _ => .fuelout s
  | fuel + 1, s, ch :: rest, inst =>
      if ch == inst then ndaList fuel s rest inst
      else
        (acquireMut s ch).bind fun s1 =>
        (ndaList fuel s1 (s1.nodes ch).children inst).bind fun s2 =>
        ndaList fuel (releaseMut (s2.emit (.descAdded ch inst)) ch) rest inst

/-- `Instance::remove_child_internal(self = par, child)`, executed while
`par` is mutably borrowed by the caller.  Finds the first position of
`child` in the children vector; if present, removes it, delivers
`on_child_removed` and `on_descendant_removed` to `par`'s listeners, then
runs `notify_descendants_removed` (children walk, then one more
`on_descendant_removed` on `par` itself). -/
def removeChildInternal (s : State) (par c : Nat) (fuel : Nat) : RRes :=
  match (s.nodes par).children.findIdx? (· == c) with
  | none => .ok s
  | some pos =>
      let s1 := s.setNode par
        { s.nodes par with children := (s.nodes par).children.eraseIdx pos }
      let s2 := (s1.emit (.childRemoved par c)).emit (.descRemoved par c)
      (ndrList fuel s2 (s2.nodes par).children c).bind fun s3 =>
      .ok (s3.emit (.descRemoved par c))

/-- `Instance::add_child_internal(self = par, child)`, executed while
`par` is mutably borrowed by the caller (and, on the only call path —
`set_parent` — while `child` is also still mutably borrowed, which makes
the re-check `can_add_child` panic). -/
def addChildInternal (s : State) (par c : Nat) (fuel : Nat) : RRes :=
  match canAddChildB s par c with
  | none => .panic s
  | some false => .ok s
  | some true =>
      let s1 := s.setNode par
        { s.nodes par with children := (s.nodes par).children ++ [c] }
      let s2 := (s1.emit (.childAdded par c)).emit (.descAdded par c)
      (ndaList fuel s2 (s2.nodes par).children c).bind fun s3 =>
      .ok (s3.emit (.descAdded par c))

/-- `Instance::set_parent(instance = c, new_parent = np)`.  The
feasibility check runs with no borrows held; on success the body acquires
`c.borrow_mut()` and holds it to the end of the block (the `RefMut` is a
local alive across both internal calls), detaches from the old parent
under a transient `old.borrow_mut()`, rewrites the parent back-reference,
attaches under a transient `p.borrow_mut()`, and finally delivers
`on_parent_changed` to `c`'s own listeners. -/
def setParent (s : State) (c : Nat) (np : Option Nat) (fuel : Nat) : RRes :=
  if canSetParent s fuel c np then
    (acquireMut s c).bind fun s1 =>
    (match (s1.nodes c).parent with
     | some old =>
         (acquireMut s1 old).bind fun s2 =>
         (removeChildInternal s2 old c fuel).bind fun s3 =>
         .ok (releaseMut s3 old)
     | none => .ok s1).bind fun s4 =>
    let s5 := s4.setNode c { s4.nodes c with parent := np }
    (match np with
     | some p =>
         (acquireMut s5 p).bind fun s6 =>
         (addChildInternal s6 p c fuel).bind fun s7 =>
         .ok (releaseMut s7 p)
     | none => .ok s5).bind fun s8 =>
    .ok (releaseMut (s8.emit (.parentChanged c np)) c)
  else .ok s

/-- `Instance::set_name`: overwrites the name field and nothing else (the
replicator notification is an unimplemented TODO in the source). -/
def setName (s : State) (i : Nat) (nm : String) : State :=
  s.setNode i { s.nodes i with name := nm }

/-!  The DataModel root registry (`datamodel.rs`).  Its two `HashMap`s are
embedded as association lists with unique keys: `mapInsert` overwrites the
value of an existing key in place or appends a new binding, `mapRemove`
drops the key's binding, `mapLookup` is keyed lookup.  Keyed operations
are order-insensitive, so this list is a faithful representative of the
`HashMap`; only `get_guid_for_instance` iterates the map, and `HashMap`
iteration order is arbitrary, so theorems about it quantify over an
arbitrary permutation of the entry list.  -/

def mapInsert (m : List (String × Nat)) (k : String) (v : Nat) :
    List (String × Nat) :=
  if m.any (·.1 == k) then m.map (fun p => if p.1 == k then (k, v) else p)
  else m ++ [(k, v)]

def mapLookup (m : List (String × Nat)) (k : String) : Option Nat :=
  (m.find? (·.1 == k)).map (·.2)

def mapRemove (m : List (String × Nat)) (k : String) : List (String × Nat) :=
  m.filter (fun p => !(p.1 == k))

/-- `struct DataModel`: the root instance id, the shared instance tree,
and the two registry maps. -/
structure DMState where
  root : Nat
  tree : State
  guidMap : List (String × Nat)
  services : List (String × Nat)

/-- Result of a DataModel operation that runs tree code. -/
inductive DRes where
  | ok : DMState → DRes
  | panic : DMState → DRes
  | fuelout : DMState → DRes

def DRes.isOk : DRes → Bool
  | .ok _ => true
  | _ => false

def DRes.isPanic : DRes → Bool
  | .panic _ => true
  | _ => false

def DRes.st : DRes → DMState
  | .ok d => d
  | .panic d => d
  | .fuelout d => d

/-- `DataModel::get_service`. -/
def getService (dm : DMState) (k : String) : Option Nat :=
  mapLookup dm.services k

/-- `DataModel::register_service`: first forces the node under the
registry root via `Instance::set_parent`, then records the name binding.
A panic inside `set_parent` propagates before the insertion happens. -/
def registerService (dm : DMState) (k : String) (n : Nat) (fuel : Nat) : DRes :=
  match setParent dm.tree n (some dm.root) fuel with
  | .ok t => .ok { dm with tree := t, services := mapInsert dm.services k n }
  | .panic t => .panic { dm with tree := t }
  | .fuelout t => .fuelout { dm with tree := t }

/-- `DataModel::get_instance_by_guid`. -/
def getInstanceByGuid (dm : DMState) (g : String) : Option Nat :=
  mapLookup dm.guidMap g

/-- `DataModel::register_instance_guid`. -/
def registerInstanceGuid (dm : DMState) (n : Nat) (g : String) : DMState :=
  { dm with guidMap := mapInsert dm.guidMap g n }

/-- `DataModel::remove_instance_guid`. -/
def removeInstanceGuid (dm : DMState) (g : String) : DMState :=
  { dm with guidMap := mapRemove dm.guidMap g }

/-- The linear reverse scan of `DataModel::get_guid_for_instance`, over
one enumeration `l` of the `guid_map` entries (theorems quantify over the
permutations of `dm.guidMap`, since `HashMap` iteration order is
arbitrary): the first entry whose value is `n` yields its key. -/
def getGuidForInstanceVia (l : List (String × Nat)) (n : Nat) : Option String :=
  (l.find? (·.2 == n)).map (·.1)

/-- The body of `<DataModel as InstanceListener>::on_child_removed`: drops
any service entry stored under the removed child's current *name*.  Note
that nothing in the repository ever calls `Instance::add_listener` to wire
a `DataModel` into its root's listener list, so this body is never reached
from a tree mutation. -/
def onChildRemoved (dm : DMState) (childName : String) : DMState :=
  { dm with services := mapRemove dm.services childName }

/-- Renaming an instance goes through `Instance::set_name` on the tree
cell only; the DataModel's maps are separate fields it does not touch. -/
def dmSetName (dm : DMState) (i : Nat) (nm : String) : DMState :=
  { dm with tree := setName dm.tree i nm }

/-!  Concrete states for counterexamples and witnesses.  -/

/-- Build a heap from a finite list of (id, node) bindings; every other id
is a freshly created default instance, no borrows held, empty trace. -/
def mkState (l : List (Nat × Node)) : State :=
  { nodes := fun i => (((l.find? (·.1 == i)).map (·.2)).getD newInstance),
    flags := fun _ => false,
    events := [] }


def sPair : State :=
  mkState [(0, { newInstance with parent := some 1 }),
           (1, { newInstance with children := [0] })]

example : (setParent (mkState []) 0 (some 1) 9).isPanic = true := by decide
example : ((setParent (mkState []) 0 (some 1) 9).st.nodes 0).parent = some 1 := by decide
example : ((setParent (mkState []) 0 (some 1) 9).st.nodes 1).children = [] := by decide
example : (setParent (mkState []) 0 (some 1) 9).st.events = [] := by decide
example : (setParent sPair 0 none 9).isOk = true := by decide
example : ((setParent sPair 0 none 9).st.nodes 1).children = [] := by decide
example : ((setParent sPair 0 none 9).st.nodes 0).parent = none := by decide
example : (setParent sPair 0 none 9).st.events =
    [Event.childRemoved 1 0, Event.descRemoved 1 0, Event.descRemoved 1 0,
     Event.parentChanged 0 none] := by decide
example : setParent sPair 0 (some 2) 9 = RRes.ok sPair := rfl

/-!  Map lemmas for the registry.  -/

theorem mapLookup_append_new {m : List (String × Nat)} {k : String} {v : Nat}
    (h : ∀ p ∈ m, (p.1 == k) = false) :
    mapLookup (m ++ [(k, v)]) k = some v := by
  induction m with
  | nil => simp [mapLookup, List.find?]
  | cons q rest ih =>
      have hq := h q (by simp)
      simp only [mapLookup, List.cons_append, List.find?, hq] at ih ⊢
      exact ih fun p hp => h p (by simp [hp])

theorem mapLookup_replace {m : List (String × Nat)} {k : String} {v : Nat}
    (h : m.any (·.1 == k) = true) :
    mapLookup (m.map fun p => if p.1 == k then (k, v) else p) k = some v := by
  induction m with
  | nil => simp at h
  | cons q rest ih =>
      by_cases hq : (q.1 == k) = true
      · simp [mapLookup, List.find?, hq]
      · have hq' : (q.1 == k) = false := by
          simpa using hq
        have hrest : rest.any (·.1 == k) = true := by
          simpa [List.any_cons, hq'] using h
        have hhead : (if (q.1 == k) = true then (k, v) else q) = q :=
          if_neg (by simp [hq'])
        simpa [mapLookup, List.map_cons, hhead, List.find?, hq'] using ih hrest

/-- Keyed lookup after `HashMap::insert` finds the inserted value. -/
theorem mapLookup_mapInsert (m : List (String × Nat)) (k : String) (v : Nat) :
    mapLookup (mapInsert m k v) k = some v := by
  by_cases h : m.any (·.1 == k) = true
  · simp only [mapInsert, if_pos h]
    exact mapLookup_replace h
  · have h' : ∀ p ∈ m, (p.1 == k) = false := by
      intro p hp
      by_contra hc
      exact h (List.any_eq_true.2 ⟨p, hp, by simpa using hc⟩)
    simp only [mapInsert, if_neg h]
    exact mapLookup_append_new h'

/-- Keyed lookup after `HashMap::remove` of that key is absent. -/
theorem mapLookup_mapRemove (m : List (String × Nat)) (k : String) :
    mapLookup (mapRemove m k) k = none := by
  induction m with
  | nil => rfl
  | cons q rest ih =>
      by_cases hq : (q.1 == k) = true
      · simp only [mapRemove, List.filter, hq, Bool.not_true] at ih ⊢
        exact ih
      · have hq' : (q.1 == k) = false := by simpa using hq
        simp only [mapRemove, mapLookup, List.filter, List.find?, hq',
          Bool.not_false] at ih ⊢
        simp [List.find?, hq', ih]

/-- The R/A/B scenario from the spec: root `R = 0` with child `A = 1`,
grandchild `B = 2` under `A`. -/
def sRAB : State :=
  mkState [(0, { newInstance with children := [1] }),
           (1, { newInstance with parent := some 0, children := [2] }),
           (2, { newInstance with parent := some 1 })]

/-- C3: when the move is infeasible — `b` is a descendant of `a`, or the
feasibility check fails for any other reason — `set_parent(a, Some(b))`
returns normally (no panic, no error) and the whole state, every parent
back-reference, every children list and even the event trace, is exactly
the state before the call. -/
theorem setParent_infeasible_noop (s : State) (a b fuel : Nat)
    (h : isAncestorOf s fuel a b = true ∨ canSetParent s fuel a (some b) = false) :
    setParent s a (some b) fuel = RRes.ok s := by
  have hfalse : canSetParent s fuel a (some b) = false := by
    rcases h with h | h
    · simp [canSetParent, h]
    · exact h
  simp [setParent, hfalse]

/-- Witness for C3 at the spec's own scenario: `R.is_ancestor_of(B)` holds
and `set_parent(R, Some(B))` is a perfect no-op, leaving `R.parent()`
none. -/
theorem setParent_infeasible_noop_witness :
    (isAncestorOf sRAB 9 0 2 = true ∨ canSetParent sRAB 9 0 (some 2) = false) ∧
    setParent sRAB 0 (some 2) 9 = RRes.ok sRAB ∧
    (sRAB.nodes 0).parent = none :=
  ⟨Or.inl (by decide),
   setParent_infeasible_noop sRAB 0 2 9 (Or.inl (by decide)),
   by decide⟩

/-- A two-node tree (child `0` attached under parent `1`) next to a fresh
detached node `2`. -/
def sPairF : State := sPair

/-- C2 counterexample: node `0` is attached to `1`; node `2` is neither
`0` nor a descendant of `0`; yet `set_parent(0, Some(2))` changes nothing
— `0` stays under `1`, `2` gains no child, no notification fires — because
`can_add_child` rejects every child that already has a parent, so the
claimed detach/rebind/attach/notify sequence never runs. -/
theorem setParent_move_attached_counterexample :
    (sPair.nodes 0).parent = some 1 ∧
    isAncestorOf sPair 9 0 2 = false ∧
    setParent sPair 0 (some 2) 9 = RRes.ok sPair ∧
    (sPair.nodes 2).children = [] ∧
    sPair.events = [] :=
  ⟨by decide, by decide, rfl, by decide, by decide⟩

/-- C2 as amended: for a node `c` that already has a parent,
`set_parent(c, Some(p2))` is always a silent no-op, whatever `p2` is; the
only way to move an attached node is to detach it first with
`set_parent(c, None)`. -/
theorem setParent_attached_noop (s : State) (c p2 fuel : Nat)
    (h : (s.nodes c).parent.isSome = true) :
    setParent s c (some p2) fuel = RRes.ok s := by
  have hadd : canAddChild s p2 c = false := by
    simp [canAddChild, h]
  have hfalse : canSetParent s fuel c (some p2) = false := by
    simp [canSetParent, hadd]
  simp [setParent, hfalse]

/-- Witness for the amended C2. -/
theorem setParent_attached_noop_witness :
    (sPairF.nodes 0).parent.isSome = true ∧
    setParent sPairF 0 (some 2) 9 = RRes.ok sPairF :=
  ⟨by decide, setParent_attached_noop sPairF 0 2 9 (by decide)⟩

/-- C9: `register_service` records the name binding unconditionally after
the forced reparent: when forcing `n` under the registry root is
infeasible (the `set_parent` feasibility check fails, e.g. because `n`
already has a parent), the reparent is a silent no-op — the tree is left
exactly as it was — and yet `get_service(name)` afterwards returns `n`. -/
theorem registerService_infeasible_still_registers (dm : DMState) (k : String)
    (n fuel : Nat)
    (h : canSetParent dm.tree fuel n (some dm.root) = false) :
    registerService dm k n fuel =
      DRes.ok { dm with services := mapInsert dm.services k n } ∧
    getService (registerService dm k n fuel).st k = some n ∧
    (registerService dm k n fuel).st.tree = dm.tree := by
  have hsp : setParent dm.tree n (some dm.root) fuel = RRes.ok dm.tree := by
    simp [setParent, h]
  refine ⟨?_, ?_, ?_⟩
  · simp [registerService, hsp]
  · simp [registerService, hsp, DRes.st, getService, mapLookup_mapInsert]
  · simp [registerService, hsp, DRes.st]

/-- The root node that `DataModel::new` builds: name and class tag both
set to "DataModel". -/
def dmRootNode : Node :=
  { name := "DataModel", className := "DataModel", archivable := true,
    parent := none, children := [] }

/-- A registry whose root is node `0` and where node `5` is already
attached under node `4`, outside the registry root. -/
def dmBusy : DMState :=
  { root := 0,
    tree := mkState [(0, dmRootNode),
                     (4, { newInstance with children := [5] }),
                     (5, { newInstance with parent := some 4 })],
    guidMap := [],
    services := [] }

/-- Witness for C9: registering the already-attached node `5` as service
"Workspace" leaves the tree untouched but makes `get_service` return `5`. -/
theorem registerService_infeasible_still_registers_witness :
    canSetParent dmBusy.tree 9 5 (some dmBusy.root) = false ∧
    (registerService dmBusy "Workspace" 5 9 =
      DRes.ok { dmBusy with services := mapInsert dmBusy.services "Workspace" 5 } ∧
     getService (registerService dmBusy "Workspace" 5 9).st "Workspace" = some 5 ∧
     (registerService dmBusy "Workspace" 5 9).st.tree = dmBusy.tree) :=
  ⟨by decide,
   registerService_infeasible_still_registers dmBusy "Workspace" 5 9 (by decide)⟩

/-- C10: `set_name` rewrites the node's name field and nothing else: no
notification is delivered (the trace is unchanged), the node's parent,
children, class tag and archivable flag are untouched, every other node is
untouched, and a DataModel's service and guid maps are unaffected, so a
service renamed after registration stays stored under its old key. -/
theorem setName_frame (s : State) (i j : Nat) (nm : String) (dm : DMState)
    (k : String) (hj : j ≠ i) :
    ((setName s i nm).nodes i).name = nm ∧
    ((setName s i nm).nodes i).parent = (s.nodes i).parent ∧
    ((setName s i nm).nodes i).children = (s.nodes i).children ∧
    ((setName s i nm).nodes i).className = (s.nodes i).className ∧
    ((setName s i nm).nodes i).archivable = (s.nodes i).archivable ∧
    (setName s i nm).events = s.events ∧
    (setName s i nm).flags = s.flags ∧
    (setName s i nm).nodes j = s.nodes j ∧
    (dmSetName dm i nm).services = dm.services ∧
    (dmSetName dm i nm).guidMap = dm.guidMap ∧
    getService (dmSetName dm i nm) k = getService dm k := by
  refine ⟨?_, ?_, ?_, ?_, ?_, ?_, ?_, ?_, ?_, ?_, ?_⟩ <;>
    simp [setName, dmSetName, State.setNode, getService, hj]

/-- Witness for C10: rename the registered service node `5` of `dmBusy`;
it stays reachable under its registration key. -/
theorem setName_frame_witness :
    (1 : Nat) ≠ 0 ∧
    (((setName dmBusy.tree 0 "Renamed").nodes 0).name = "Renamed" ∧
     ((setName dmBusy.tree 0 "Renamed").nodes 0).parent =
       (dmBusy.tree.nodes 0).parent ∧
     ((setName dmBusy.tree 0 "Renamed").nodes 0).children =
       (dmBusy.tree.nodes 0).children ∧
     ((setName dmBusy.tree 0 "Renamed").nodes 0).className =
       (dmBusy.tree.nodes 0).className ∧
     ((setName dmBusy.tree 0 "Renamed").nodes 0).archivable =
       (dmBusy.tree.nodes 0).archivable ∧
     (setName dmBusy.tree 0 "Renamed").events = dmBusy.tree.events ∧
     (setName dmBusy.tree 0 "Renamed").flags = dmBusy.tree.flags ∧
     (setName dmBusy.tree 0 "Renamed").nodes 1 = dmBusy.tree.nodes 1 ∧
     (dmSetName dmBusy 0 "Renamed").services = dmBusy.services ∧
     (dmSetName dmBusy 0 "Renamed").guidMap = dmBusy.guidMap ∧
     getService (dmSetName dmBusy 0 "Renamed") "X" = getService dmBusy "X") :=
  ⟨by decide, setName_frame dmBusy.tree 0 1 "Renamed" dmBusy "X" (by decide)⟩

/-- If the pair `(g, n)` occurs in the enumeration and every entry with
value `n` carries key `g`, the linear reverse scan returns `g`. -/
theorem getGuidForInstanceVia_unique {l : List (String × Nat)} {n : Nat}
    {g : String} (hex : (g, n) ∈ l)
    (hall : ∀ p ∈ l, p.2 = n → p.1 = g) :
    getGuidForInstanceVia l n = some g := by
  induction l with
  | nil => cases hex
  | cons q rest ih =>
      by_cases hq : (q.2 == n) = true
      · have hk : q.1 = g := hall q (by simp) (by simpa using hq)
        simp [getGuidForInstanceVia, List.find?, hq, hk]
      · have hq' : (q.2 == n) = false := by simpa using hq
        have hex' : (g, n) ∈ rest := by
          rcases List.mem_cons.1 hex with h | h
          · exfalso
            apply hq
            simp [← h]
          · exact h
        simp only [getGuidForInstanceVia, List.find?, hq'] at ih ⊢
        exact ih hex' fun p hp hpn => hall p (by simp [hp]) hpn

/-- `HashMap::insert` leaves the inserted binding in the map. -/
theorem mem_mapInsert_self (m : List (String × Nat)) (g : String) (n : Nat) :
    (g, n) ∈ mapInsert m g n := by
  by_cases h : m.any (·.1 == g) = true
  · simp only [mapInsert, if_pos h]
    rcases List.any_eq_true.1 h with ⟨p, hp, hpk⟩
    refine List.mem_map.2 ⟨p, hp, ?_⟩
    simp [show (p.1 == g) = true from by simpa using hpk]
  · simp [mapInsert, if_neg h]

/-- `HashMap::insert` of `(g, n)` preserves "every entry with value `n`
has key `g`". -/
theorem mapInsert_value_key {m : List (String × Nat)} {g : String} {n : Nat}
    (honly : ∀ p ∈ m, p.2 = n → p.1 = g) :
    ∀ p ∈ mapInsert m g n, p.2 = n → p.1 = g := by
  intro p hp hpn
  by_cases h : m.any (·.1 == g) = true
  · simp only [mapInsert, if_pos h] at hp
    rcases List.mem_map.1 hp with ⟨q, hq, hqe⟩
    by_cases hqk : (q.1 == g) = true
    · rw [if_pos hqk] at hqe
      rw [← hqe]
    · rw [if_neg hqk] at hqe
      rw [← hqe] at hpn ⊢
      exact honly q hq hpn
  · simp only [mapInsert, if_neg h, List.mem_append] at hp
    rcases hp with hp | hp
    · exact honly p hp hpn
    · simp only [List.mem_singleton] at hp
      rw [hp]

/-- C8 as amended: after `register_instance_guid(n, g)`,
`get_instance_by_guid(g)` returns `n`; `get_guid_for_instance(n)` returns
`g` under every iteration order of the map, provided `n` was not already
registered under a different id (`HashMap` iteration order is arbitrary,
so with two ids mapping to `n` either may be reported);
`remove_instance_guid(g)` then makes lookup absent; and re-registering a
second node under the used id silently overwrites (last writer wins). -/
theorem guid_registry_spec (dm : DMState) (n n2 : Nat) (g : String)
    (l : List (String × Nat))
    (hperm : l.Perm (registerInstanceGuid dm n g).guidMap)
    (honly : ∀ p ∈ dm.guidMap, p.2 = n → p.1 = g) :
    getInstanceByGuid (registerInstanceGuid dm n g) g = some n ∧
    getGuidForInstanceVia l n = some g ∧
    getInstanceByGuid (removeInstanceGuid (registerInstanceGuid dm n g) g) g =
      none ∧
    getInstanceByGuid (registerInstanceGuid (registerInstanceGuid dm n g) n2 g)
      g = some n2 := by
  refine ⟨?_, ?_, ?_, ?_⟩
  · simp [getInstanceByGuid, registerInstanceGuid, mapLookup_mapInsert]
  · refine getGuidForInstanceVia_unique ?_ ?_
    · exact hperm.mem_iff.2 (mem_mapInsert_self dm.guidMap g n)
    · intro p hp hpn
      exact mapInsert_value_key honly p (hperm.mem_iff.1 hp) hpn
  · simp [getInstanceByGuid, removeInstanceGuid, registerInstanceGuid,
      mapLookup_mapRemove]
  · simp [getInstanceByGuid, registerInstanceGuid, mapLookup_mapInsert]

/-- A registry in which node `7` is already registered under id "g0". -/
def dmGuidDup : DMState :=
  { root := 0, tree := mkState [], guidMap := [("g0", 7)], services := [] }

/-- C8 counterexample: register node `7` under "g1" in a registry that
already maps "g0" to `7`.  Keyed lookup does return `7`, but the linear
reverse scan of `get_guid_for_instance`, run in an admissible iteration
order of the map (here: insertion order), reports "g0", not "g1". -/
theorem guid_reverse_scan_counterexample :
    (registerInstanceGuid dmGuidDup 7 "g1").guidMap = [("g0", 7), ("g1", 7)] ∧
    ([("g0", 7), ("g1", 7)] : List (String × Nat)).Perm
      (registerInstanceGuid dmGuidDup 7 "g1").guidMap ∧
    getInstanceByGuid (registerInstanceGuid dmGuidDup 7 "g1") "g1" = some 7 ∧
    getGuidForInstanceVia [("g0", 7), ("g1", 7)] 7 = some "g0" ∧
    some "g0" ≠ some "g1" := by
  refine ⟨by decide, ?_, by decide, by decide, by decide⟩
  have h : (registerInstanceGuid dmGuidDup 7 "g1").guidMap =
      [("g0", 7), ("g1", 7)] := by decide
  rw [h]

/-- An empty registry for the C8 witness. -/
def dmGuidFresh : DMState :=
  { root := 0, tree := mkState [], guidMap := [], services := [] }

/-- Witness for the amended C8 on a fresh registry. -/
theorem guid_registry_spec_witness :
    ([("g1", 5)] : List (String × Nat)).Perm
      (registerInstanceGuid dmGuidFresh 5 "g1").guidMap ∧
    (∀ p ∈ dmGuidFresh.guidMap, p.2 = 5 → p.1 = "g1") ∧
    (getInstanceByGuid (registerInstanceGuid dmGuidFresh 5 "g1") "g1" =
       some 5 ∧
     getGuidForInstanceVia [("g1", 5)] 5 = some "g1" ∧
     getInstanceByGuid
       (removeInstanceGuid (registerInstanceGuid dmGuidFresh 5 "g1") "g1")
       "g1" = none ∧
     getInstanceByGuid
       (registerInstanceGuid (registerInstanceGuid dmGuidFresh 5 "g1") 6 "g1")
       "g1" = some 6) := by
  refine ⟨?_, by decide, ?_⟩
  · have h : (registerInstanceGuid dmGuidFresh 5 "g1").guidMap =
        [("g1", 5)] := by decide
    rw [h]
  · refine guid_registry_spec dmGuidFresh 5 6 "g1" [("g1", 5)] ?_ (by decide)
    have h : (registerInstanceGuid dmGuidFresh 5 "g1").guidMap =
        [("g1", 5)] := by decide
    rw [h]

/-- The coherence invariant of the spec at a pair of nodes: `j` is in
`i`'s children exactly when `j`'s parent back-reference is `i`. -/
def childrenParentCoherent (s : State) (i j : Nat) : Prop :=
  j ∈ (s.nodes i).children ↔ (s.nodes j).parent = some i

instance (s : State) (i j : Nat) : Decidable (childrenParentCoherent s i j) :=
  inferInstanceAs (Decidable (_ ↔ _))

/-- C1: the feasibility check passes for attaching the fresh detached node
`0` under the fresh node `1`, yet `set_parent(0, Some(1))` does not
succeed: it panics with a `RefCell` double borrow (`add_child_internal`
re-runs `can_add_child`, whose `child.borrow()` hits the `RefMut` that
`set_parent` still holds on the child), and at the point of the panic the
new parent's children list still does not contain the child, while the
child's parent back-reference has already been rewritten to the new
parent.  The repository's own test `test_parent_child_relationship`
asserts that this call succeeds. -/
theorem setParent_attach_panics :
    canSetParent (mkState []) 9 0 (some 1) = true ∧
    (setParent (mkState []) 0 (some 1) 9).isPanic = true ∧
    ((setParent (mkState []) 0 (some 1) 9).st.nodes 1).children = [] ∧
    ((setParent (mkState []) 0 (some 1) 9).st.nodes 0).parent = some 1 := by
  decide

/-- C4: on a feasible direct attach of node `2` under node `0` (which
already has one child `1` and is itself a plausible listener host), the
call panics inside `add_child_internal` before a single notification is
delivered: no `on_child_added`, no `on_descendant_added`, nothing — the
event trace stays empty. -/
theorem attach_delivers_no_notifications :
    canSetParent (mkState [(0, { newInstance with children := [1] }),
                           (1, { newInstance with parent := some 0 })])
      9 2 (some 0) = true ∧
    (setParent (mkState [(0, { newInstance with children := [1] }),
                         (1, { newInstance with parent := some 0 })])
      2 (some 0) 9).isPanic = true ∧
    (setParent (mkState [(0, { newInstance with children := [1] }),
                         (1, { newInstance with parent := some 0 })])
      2 (some 0) 9).st.events = [] := by
  decide

/-- C5: a single feasible `set_parent` step out of two freshly created
nodes already fails to preserve the invariants: the call panics midway,
and in the state left behind node `1`'s parent back-reference is node `0`
while node `0`'s children list does not contain `1` — the children /
back-reference coherence invariant is broken. -/
theorem setParent_step_breaks_invariant :
    (setParent (mkState []) 1 (some 0) 9).isPanic = true ∧
    ((setParent (mkState []) 1 (some 0) 9).st.nodes 1).parent = some 0 ∧
    (1 ∈ ((setParent (mkState []) 1 (some 0) 9).st.nodes 0).children) = False ∧
    ¬ childrenParentCoherent (setParent (mkState []) 1 (some 0) 9).st 0 1 := by
  decide

/-- A freshly constructed registry: root node `0` as built by
`DataModel::new`, empty maps; node `1` is a fresh detached instance. -/
def dmFresh : DMState :=
  { root := 0, tree := mkState [(0, dmRootNode)], guidMap := [],
    services := [] }

/-- C6: `register_service("X", 1)` on a fresh registry panics inside the
forced `set_parent` (same `RefCell` double borrow as any feasible attach)
before `services.insert` runs, so `get_service("X")` afterwards returns
the absent value and the root has gained no child.  The repository's own
test `test_service_registration` asserts the opposite.  (Independently,
no code ever calls `add_listener` to wire the `DataModel` into its root's
listener list, so the name-entry drop of `on_child_removed` could never
fire on a detach either.) -/
theorem registerService_panics :
    (registerService dmFresh "X" 1 9).isPanic = true ∧
    getService (registerService dmFresh "X" 1 9).st "X" = none ∧
    ((registerService dmFresh "X" 1 9).st.tree.nodes 0).children = [] ∧
    ((registerService dmFresh "X" 1 9).st.tree.nodes 1).parent = some 0 := by
  decide

/-- Whatever fuel, the removal walk over an empty worklist is a no-op. -/
theorem ndrList_nil (fuel : Nat) (s : State) (inst : Nat) :
    ndrList fuel s [] inst = RRes.ok s := by
  cases fuel <;> rfl

/-- Down-closure of a worklist under the children structure `N`: the nodes
the `notify_descendants_removed` walk can visit. -/
inductive DCl (N : Nat → Node) (l : List Nat) : Nat → Prop where
  | base {x : Nat} : x ∈ l → DCl N l x
  | step {z x : Nat} : DCl N l z → x ∈ (N z).children → DCl N l x

theorem DCl_of_child {N : Nat → Node} {l : List Nat} {ch x : Nat}
    (hch : ch ∈ l) (hx : DCl N (N ch).children x) : DCl N l x := by
  induction hx with
  | base h => exact DCl.step (DCl.base hch) h
  | step _ hc ih => exact DCl.step ih hc

theorem DCl_cons_of_rest {N : Nat → Node} {ch : Nat} {rest : List Nat} {x : Nat}
    (h : DCl N rest x) : DCl N (ch :: rest) x := by
  induction h with
  | base hm => exact DCl.base (List.mem_cons_of_mem _ hm)
  | step _ hc ih => exact DCl.step ih hc

theorem DCl_bound {N : Nat → Node} {hgt : Nat → Nat}
    (hmeas : ∀ x y, y ∈ (N x).children → hgt y < hgt x) {l : List Nat} {x : Nat}
    (h : DCl N l x) : ∃ y ∈ l, hgt x ≤ hgt y := by
  induction h with
  | base hm => exact ⟨_, hm, le_refl _⟩
  | step _ hc ih =>
      rcases ih with ⟨y, hy, hle⟩
      exact ⟨y, hy, le_trans (le_of_lt (hmeas _ _ hc)) hle⟩

/-- Specification of the removal walk: on a heap `N` whose children
structure admits a strictly decreasing height measure, starting from a
worklist of free (unborrowed) down-closed nodes, the walk succeeds for
every sufficiently large fuel, changes nothing but the trace, restores all
borrow flags, and appends only `on_descendant_removed` deliveries. -/
theorem ndrList_exists_ok (N : Nat → Node) (hgt : Nat → Nat)
    (hmeas : ∀ x y, y ∈ (N x).children → hgt y < hgt x) :
    ∀ (B : Nat) (l : List Nat), (∀ x ∈ l, hgt x < B) →
    ∀ (s : State) (inst : Nat), s.nodes = N →
      (∀ x, DCl N l x → s.flags x = false) →
      ∃ F evs,
        (∀ fuel, F ≤ fuel →
          ndrList fuel s l inst = RRes.ok { s with events := s.events ++ evs }) ∧
        ∀ e ∈ evs, ∃ nn, e = Event.descRemoved nn inst := by
  intro B
  induction B with
  | zero =>
      intro l hb s inst _ _
      cases l with
      | nil =>
          refine ⟨0, [], fun fuel _ => ?_, by simp⟩
          have hs : { s with events := s.events ++ ([] : List Event) } = s := by
            cases s
            simp
          rw [hs]
          exact ndrList_nil fuel s inst
      | cons ch rest =>
          exact absurd (hb ch (List.mem_cons_self ch rest)) (Nat.not_lt_zero _)
  | succ B IH =>
      intro l
      induction l with
      | nil =>
          intro _ s inst _ _
          refine ⟨0, [], fun fuel _ => ?_, by simp⟩
          have hs : { s with events := s.events ++ ([] : List Event) } = s := by
            cases s
            simp
          rw [hs]
          exact ndrList_nil fuel s inst
      | cons ch rest IHrest =>
          intro hb s inst hN hfl
          have hchl : ch ∈ ch :: rest := List.mem_cons_self ch rest
          have hflch : s.flags ch = false := hfl ch (DCl.base hchl)
          have hA : acquireMut s ch =
              RRes.ok { s with flags := fun j => if j = ch then true else s.flags j } := by
            simp [acquireMut, hflch]
          have hbound' : ∀ x ∈ (N ch).children, hgt x < B := by
            intro x hx
            have h1 : hgt x < hgt ch := hmeas ch x hx
            have h2 : hgt ch < B + 1 := hb ch hchl
            omega
          have hflags' : ∀ x, DCl N (N ch).children x →
              (fun j => if j = ch then true else s.flags j) x = false := by
            intro x hx
            have hxl : DCl N (ch :: rest) x := DCl_of_child hchl hx
            have hxs : s.flags x = false := hfl x hxl
            have hne : x ≠ ch := by
              rcases DCl_bound hmeas hx with ⟨y, hy, hxy⟩
              have hy2 : hgt y < hgt ch := hmeas ch y hy
              intro he
              rw [he] at hxy
              omega
            simp [hne, hxs]
          obtain ⟨F1, evs1, h1run, h1desc⟩ :=
            IH (N ch).children hbound'
              { s with flags := fun j => if j = ch then true else s.flags j }
              inst hN hflags'
          have hrel : releaseMut
              ({ s with
                  flags := fun j => if j = ch then true else s.flags j
                  events := s.events ++ evs1 }.emit (.descRemoved ch inst)) ch =
              { s with events := s.events ++ evs1 ++ [Event.descRemoved ch inst] } := by
            cases s with
            | mk nn ff ee =>
                simp only [releaseMut, State.emit]
                congr 1
                funext j
                by_cases hj : j = ch
                · subst hj
                  simp only [State.flags] at hflch
                  simp [hflch]
                · simp [hj]
          have hbrest : ∀ x ∈ rest, hgt x < B + 1 := fun x hx =>
            hb x (List.mem_cons_of_mem _ hx)
          have hflrest : ∀ x, DCl N rest x →
              ({ s with events := s.events ++ evs1 ++ [Event.descRemoved ch inst] } :
                State).flags x = false := by
            intro x hx
            exact hfl x (DCl_cons_of_rest hx)
          obtain ⟨F2, evs2, h2run, h2desc⟩ :=
            IHrest hbrest
              { s with events := s.events ++ evs1 ++ [Event.descRemoved ch inst] }
              inst hN hflrest
          refine ⟨max F1 F2 + 1, evs1 ++ [Event.descRemoved ch inst] ++ evs2,
            ?_, ?_⟩
          · intro fuel hfuel
            obtain ⟨f, rfl⟩ : ∃ f, fuel = f + 1 := ⟨fuel - 1, by omega⟩
            have hf1 : F1 ≤ f := by omega
            have hf2 : F2 ≤ f := by omega
            show (acquireMut s ch).bind _ = _
            rw [hA]
            show (ndrList f _ _ inst).bind _ = _
            have hnodes : ({ s with
                flags := fun j => if j = ch then true else s.flags j } :
                State).nodes ch = N ch := by
              rw [← hN]
            rw [hnodes, h1run f hf1]
            show ndrList f _ rest inst = _
            rw [hrel, h2run f hf2]
            cases s
            simp
          · intro e he
            rcases List.mem_append.1 he with he1 | he2
            · rcases List.mem_append.1 he1 with he1 | he1
              · exact h1desc e he1
              · simp only [List.mem_singleton] at he1
                exact ⟨ch, he1⟩
            · exact h2desc e he2

/-- Rust's `position(ptr_eq)` followed by `Vec::remove(pos)` is exactly
first-occurrence erasure. -/
theorem findIdx_erase_of_mem {l : List Nat} {c : Nat} (h : c ∈ l) :
    ∃ pos, l.findIdx? (· == c) = some pos ∧ l.eraseIdx pos = l.erase c := by
  induction l with
  | nil => cases h
  | cons a rest ih =>
      by_cases hac : (a == c) = true
      · refine ⟨0, ?_, ?_⟩
        · simp [List.findIdx?_cons, hac]
        · simp [List.erase_cons, hac]
      · have hac' : (a == c) = false := by simpa using hac
        have hc' : c ∈ rest := by
          rcases List.mem_cons.1 h with h1 | h1
          · exact absurd (show (a == c) = true by simp [h1]) hac
          · exact h1
        rcases ih hc' with ⟨pos, hf, he⟩
        refine ⟨pos + 1, ?_, ?_⟩
        · simp [List.findIdx?_cons, hac', hf]
        · simp [List.erase_cons, hac', he]

/-- The spec's tree invariants for the instance heap, with an explicit
height measure witnessing acyclicity: children and parent back-references
agree in both directions, children lists have no duplicates, every child
sits strictly below its parent in the measure, and no `RefCell` borrow is
held. -/
structure WF (s : State) (hgt : Nat → Nat) : Prop where
  coh1 : ∀ x y, y ∈ (s.nodes x).children → (s.nodes y).parent = some x
  coh2 : ∀ x y, (s.nodes y).parent = some x → y ∈ (s.nodes x).children
  nodupCh : ∀ x, ((s.nodes x).children).Nodup
  meas : ∀ x y, y ∈ (s.nodes x).children → hgt y < hgt x
  freeFlags : ∀ x, s.flags x = false

/-- C7: on any well-formed tree, for a node `c` attached under parent `p`,
`set_parent(c, None)` (with enough fuel for the notification walk)
succeeds without panic; it removes `c` from `p`'s children exactly once
(the count drops from one to zero), clears `c`'s parent back-reference,
touches no other node's children or parent and no name/class/archivable
field, releases every borrow, and its trace is `on_child_removed` and
`on_descendant_removed` on `p`, then the recursive
`notify_descendants_removed` walk (only `on_descendant_removed`
deliveries, ending with one more on `p` itself), then `on_parent_changed`
on `c`. -/
theorem setParent_detach_spec (s : State) (hgt : Nat → Nat) (c p : Nat)
    (hwf : WF s hgt) (hp : (s.nodes c).parent = some p) :
    ∃ F s' walkEvs,
      (∀ fuel, F ≤ fuel → setParent s c none fuel = RRes.ok s') ∧
      (s.nodes p).children.count c = 1 ∧
      (s'.nodes p).children = (s.nodes p).children.erase c ∧
      (s'.nodes p).children.count c = 0 ∧
      (s'.nodes c).parent = none ∧
      (∀ x, x ≠ p → (s'.nodes x).children = (s.nodes x).children) ∧
      (∀ x, x ≠ c → (s'.nodes x).parent = (s.nodes x).parent) ∧
      (∀ x, (s'.nodes x).name = (s.nodes x).name ∧
            (s'.nodes x).className = (s.nodes x).className ∧
            (s'.nodes x).archivable = (s.nodes x).archivable) ∧
      (∀ x, s'.flags x = false) ∧
      s'.events = s.events ++ [Event.childRemoved p c, Event.descRemoved p c]
        ++ walkEvs ++ [Event.descRemoved p c, Event.parentChanged c none] ∧
      (∀ e ∈ walkEvs, ∃ nn, e = Event.descRemoved nn c) := by
  have hcmem : c ∈ (s.nodes p).children := hwf.coh2 p c hp
  have hcp : c ≠ p := by
    intro he
    have hlt := hwf.meas p c hcmem
    rw [he] at hlt
    omega
  have hcount1 : (s.nodes p).children.count c = 1 :=
    List.count_eq_one_of_mem (hwf.nodupCh p) hcmem
  -- the borrow acquisitions
  set sA : State :=
    { s with flags := fun j => if j = c then true else s.flags j } with hsA
  have hacqC : acquireMut s c = RRes.ok sA := by
    simp [acquireMut, hwf.freeFlags c, hsA]
  have hsAnodes : sA.nodes = s.nodes := rfl
  have hfpA : sA.flags p = false := by
    simp [hsA, Ne.symm hcp, hwf.freeFlags p]
  set sB : State :=
    { sA with flags := fun j => if j = p then true else sA.flags j } with hsB
  have hacqP : acquireMut sA p = RRes.ok sB := by
    unfold acquireMut
    rw [hfpA]
    rfl
  have hsBnodes : sB.nodes = s.nodes := rfl
  -- the removal
  rcases findIdx_erase_of_mem hcmem with ⟨pos, hfindIdx, heraseIdx⟩
  set s1r : State := sB.setNode p
    { sB.nodes p with children := (sB.nodes p).children.eraseIdx pos } with hs1r
  set s2r : State :=
    (s1r.emit (.childRemoved p c)).emit (.descRemoved p c) with hs2r
  have hN' : s2r.nodes = fun j => if j = p then
      { s.nodes p with children := (s.nodes p).children.erase c }
      else s.nodes j := by
    funext j
    simp [hs2r, hs1r, State.setNode, State.emit, heraseIdx]
  have hwl : (s2r.nodes p).children = (s.nodes p).children.erase c := by
    rw [hN']
    simp
  have hs2rflags : s2r.flags =
      fun j => if j = p then true else if j = c then true else s.flags j := by
    funext j
    simp [hs2r, hs1r, hsB, hsA, State.setNode, State.emit]
  have hs2revents : s2r.events =
      s.events ++ [Event.childRemoved p c, Event.descRemoved p c] := by
    simp [hs2r, hs1r, State.setNode, State.emit]
  -- walk preconditions
  have hmeas' : ∀ x y, y ∈ (s2r.nodes x).children → hgt y < hgt x := by
    intro x y hy
    rw [hN'] at hy
    by_cases hxp : x = p
    · simp only [hxp] at hy ⊢
      simp at hy
      exact hwf.meas p y (List.mem_of_mem_erase hy)
    · simp only [if_neg hxp] at hy
      exact hwf.meas x y hy
  have hbound : ∀ x ∈ (s2r.nodes p).children, hgt x < hgt p := by
    intro x hx
    rw [hwl] at hx
    exact hwf.meas p x (List.mem_of_mem_erase hx)
  have hnotc : ∀ x, DCl s2r.nodes ((s2r.nodes p).children) x → x ≠ c := by
    intro x hx
    induction hx with
    | base hm =>
        rw [hwl] at hm
        intro he
        rw [he] at hm
        exact ((hwf.nodupCh p).mem_erase_iff.1 hm).1 rfl
    | step hz hc2 ih =>
        rename_i z x'
        intro he
        rw [he] at hc2
        by_cases hzp : z = p
        · rw [hzp, hwl] at hc2
          exact ((hwf.nodupCh p).mem_erase_iff.1 hc2).1 rfl
        · have hzn : s2r.nodes z = s.nodes z := by
            rw [hN']
            simp [hzp]
          rw [hzn] at hc2
          have hpc := hwf.coh1 z c hc2
          rw [hp] at hpc
          exact hzp (Option.some.inj hpc).symm
  have hflagsCond : ∀ x, DCl s2r.nodes ((s2r.nodes p).children) x →
      s2r.flags x = false := by
    intro x hx
    have hxc : x ≠ c := hnotc x hx
    have hxp : x ≠ p := by
      rcases DCl_bound hmeas' hx with ⟨y, hy, hxy⟩
      have hy2 : hgt y < hgt p := hbound y hy
      intro he
      rw [he] at hxy
      omega
    rw [hs2rflags]
    simp [hxp, hxc, hwf.freeFlags x]
  obtain ⟨F1, walkEvs, hrun, hdesc⟩ :=
    ndrList_exists_ok s2r.nodes hgt hmeas' (hgt p) ((s2r.nodes p).children)
      hbound s2r c rfl hflagsCond
  -- the final state
  set s3r : State :=
    ({ s2r with events := s2r.events ++ walkEvs }).emit (.descRemoved p c)
    with hs3r
  set s4r : State := releaseMut s3r p with hs4r
  set s5r : State := s4r.setNode c { s4r.nodes c with parent := none } with hs5r
  set sFin : State := releaseMut (s5r.emit (.parentChanged c none)) c with hsFin
  have hrem : ∀ fuel, F1 ≤ fuel →
      removeChildInternal sB p c fuel = RRes.ok s3r := by
    intro fuel hf
    show (match (sB.nodes p).children.findIdx? (· == c) with
      | none => RRes.ok sB
      | some pos =>
          (ndrList fuel ((sB.setNode p { sB.nodes p with
              children := (sB.nodes p).children.eraseIdx pos }).emit
              (.childRemoved p c) |>.emit (.descRemoved p c))
            (((sB.setNode p { sB.nodes p with
              children := (sB.nodes p).children.eraseIdx pos }).emit
              (.childRemoved p c) |>.emit (.descRemoved p c)).nodes p).children
            c).bind fun s3 =>
          RRes.ok (s3.emit (.descRemoved p c))) = RRes.ok s3r
    rw [show (sB.nodes p).children.findIdx? (· == c) = some pos from by
      rw [hsBnodes]
      exact hfindIdx]
    show (ndrList fuel s2r ((s2r.nodes p).children) c).bind
        (fun s3 => RRes.ok (s3.emit (.descRemoved p c))) = RRes.ok s3r
    rw [hrun fuel hf]
    rfl
  -- field-by-field description of the final state
  have hFinNodesEx : ∀ j, sFin.nodes j =
      if j = c then { s.nodes c with parent := none }
      else if j = p then
        { s.nodes p with children := (s.nodes p).children.erase c }
      else s.nodes j := by
    intro j
    show (if j = c then { s2r.nodes c with parent := none } else s2r.nodes j) = _
    rw [hN']
    by_cases hjc : j = c
    · simp only [hjc, if_pos rfl]
      simp [hcp]
    · by_cases hjp : j = p
      · simp [hjc, hjp, Ne.symm hcp]
      · simp [hjc, hjp]
  have hFinFlags : ∀ x, sFin.flags x = false := by
    intro x
    show (if x = c then false else if x = p then false else s2r.flags x) = false
    by_cases hxc : x = c
    · simp [hxc]
    · by_cases hxp : x = p
      · simp [hxc, hxp]
      · rw [hs2rflags]
        simp [hxc, hxp, hwf.freeFlags x]
  have hFinEvents : sFin.events =
      s.events ++ [Event.childRemoved p c, Event.descRemoved p c]
        ++ walkEvs ++ [Event.descRemoved p c, Event.parentChanged c none] := by
    show s2r.events ++ walkEvs ++ [Event.descRemoved p c]
        ++ [Event.parentChanged c none] = _
    rw [hs2revents]
    simp
  refine ⟨F1, sFin, walkEvs, ?_, hcount1, ?_, ?_, ?_, ?_, ?_, ?_, hFinFlags,
    hFinEvents, hdesc⟩
  · intro fuel hf
    show setParent s c none fuel = RRes.ok sFin
    have hguard : canSetParent s fuel c none = true := rfl
    show (if canSetParent s fuel c none = true then _ else _) = _
    rw [hguard]
    simp only [if_pos rfl]
    rw [hacqC]
    show ((match (sA.nodes c).parent with
      | some old =>
          (acquireMut sA old).bind fun s2 =>
          (removeChildInternal s2 old c fuel).bind fun s3 =>
          RRes.ok (releaseMut s3 old)
      | none => RRes.ok sA) : RRes).bind _ = _
    rw [show (sA.nodes c).parent = some p from hp]
    show ((acquireMut sA p).bind fun s2 =>
        (removeChildInternal s2 p c fuel).bind fun s3 =>
        RRes.ok (releaseMut s3 p)).bind _ = _
    rw [hacqP]
    show ((removeChildInternal sB p c fuel).bind fun s3 =>
        RRes.ok (releaseMut s3 p)).bind _ = _
    rw [hrem fuel hf]
    rfl
  · rw [hFinNodesEx p]
    simp [Ne.symm hcp]
  · rw [hFinNodesEx p]
    have hred : (if p = c then ({ s.nodes c with parent := none } : Node)
        else if p = p then
          { s.nodes p with children := (s.nodes p).children.erase c }
        else s.nodes p) =
        { s.nodes p with children := (s.nodes p).children.erase c } := by
      simp [Ne.symm hcp]
    rw [hred]
    refine List.count_eq_zero.2 fun hmem => ?_
    exact ((hwf.nodupCh p).mem_erase_iff.1 hmem).1 rfl
  · rw [hFinNodesEx c]
    simp
  · intro x hxp
    rw [hFinNodesEx x]
    by_cases hxc : x = c
    · simp [hxc]
    · simp [hxc, hxp]
  · intro x hxc
    rw [hFinNodesEx x]
    by_cases hxp : x = p
    · simp [hxc, hxp, Ne.symm hcp]
    · simp [hxc, hxp]
  · intro x
    rw [hFinNodesEx x]
    by_cases hxc : x = c
    · simp [hxc]
    · by_cases hxp : x = p
      · simp [hxc, hxp, Ne.symm hcp]
      · simp [hxc, hxp]

/-- A concrete well-formed tree: root `1` with children `[0, 2]`; `2` has
child `3`. -/
def wNodes : Nat → Node := fun i =>
  if i = 0 then { newInstance with parent := some 1 }
  else if i = 1 then { newInstance with children := [0, 2] }
  else if i = 2 then { newInstance with parent := some 1, children := [3] }
  else if i = 3 then { newInstance with parent := some 2 }
  else newInstance

def wState : State :=
  { nodes := wNodes, flags := fun _ => false, events := [] }

/-- Height measure for `wState`. -/
def wHgt : Nat → Nat := fun i => if i = 1 then 2 else if i = 2 then 1 else 0

theorem wState_wf : WF wState wHgt := by
  refine ⟨?_, ?_, ?_, ?_, fun x => rfl⟩
  · intro x y hy
    by_cases h0 : x = 0
    · rw [h0] at hy
      simp [wState, wNodes, newInstance] at hy
    · by_cases h1 : x = 1
      · rw [h1] at hy
        simp [wState, wNodes, newInstance] at hy
        rcases hy with rfl | rfl <;> simp [wState, wNodes, h1]
      · by_cases h2 : x = 2
        · rw [h2] at hy
          simp [wState, wNodes, newInstance] at hy
          rw [hy, h2]
          simp [wState, wNodes]
        · by_cases h3 : x = 3
          · rw [h3] at hy
            simp [wState, wNodes, newInstance] at hy
          · simp [wState, wNodes, h0, h1, h2, h3, newInstance] at hy
  · intro x y hpy
    by_cases h0 : y = 0
    · rw [h0] at hpy
      simp [wState, wNodes, newInstance] at hpy
      rw [h0, ← hpy]
      simp [wState, wNodes]
    · by_cases h1 : y = 1
      · rw [h1] at hpy
        simp [wState, wNodes, newInstance] at hpy
      · by_cases h2 : y = 2
        · rw [h2] at hpy
          simp [wState, wNodes, newInstance] at hpy
          rw [h2, ← hpy]
          simp [wState, wNodes]
        · by_cases h3 : y = 3
          · rw [h3] at hpy
            simp [wState, wNodes, newInstance] at hpy
            rw [h3, ← hpy]
            simp [wState, wNodes]
          · simp [wState, wNodes, h0, h1, h2, h3, newInstance] at hpy
  · intro x
    by_cases h0 : x = 0
    · rw [h0]; decide
    · by_cases h1 : x = 1
      · rw [h1]; decide
      · by_cases h2 : x = 2
        · rw [h2]; decide
        · by_cases h3 : x = 3
          · rw [h3]; decide
          · simp [wState, wNodes, h0, h1, h2, h3, newInstance]
  · intro x y hy
    by_cases h0 : x = 0
    · rw [h0] at hy
      simp [wState, wNodes, newInstance] at hy
    · by_cases h1 : x = 1
      · rw [h1] at hy
        simp [wState, wNodes, newInstance] at hy
        rw [h1]
        rcases hy with rfl | rfl <;> decide
      · by_cases h2 : x = 2
        · rw [h2] at hy
          simp [wState, wNodes, newInstance] at hy
          rw [hy, h2]
          decide
        · by_cases h3 : x = 3
          · rw [h3] at hy
            simp [wState, wNodes, newInstance] at hy
          · simp [wState, wNodes, h0, h1, h2, h3, newInstance] at hy

/-- Witness for C7: detaching node `0` from its parent `1` in the
concrete tree. -/
theorem setParent_detach_spec_witness :
    (wState.nodes 0).parent = some 1 ∧
    (∃ F s' walkEvs,
      (∀ fuel, F ≤ fuel → setParent wState 0 none fuel = RRes.ok s') ∧
      (wState.nodes 1).children.count 0 = 1 ∧
      (s'.nodes 1).children = (wState.nodes 1).children.erase 0 ∧
      (s'.nodes 1).children.count 0 = 0 ∧
      (s'.nodes 0).parent = none ∧
      (∀ x, x ≠ 1 → (s'.nodes x).children = (wState.nodes x).children) ∧
      (∀ x, x ≠ 0 → (s'.nodes x).parent = (wState.nodes x).parent) ∧
      (∀ x, (s'.nodes x).name = (wState.nodes x).name ∧
            (s'.nodes x).className = (wState.nodes x).className ∧
            (s'.nodes x).archivable = (wState.nodes x).archivable) ∧
      (∀ x, s'.flags x = false) ∧
      s'.events = wState.events
        ++ [Event.childRemoved 1 0, Event.descRemoved 1 0]
        ++ walkEvs ++ [Event.descRemoved 1 0, Event.parentChanged 0 none] ∧
      (∀ e ∈ walkEvs, ∃ nn, e = Event.descRemoved nn 0)) :=
  ⟨rfl, setParent_detach_spec wState wHgt 0 1 wState_wf rfl⟩
